import Mathlib

/-!
Shallow embedding of the weather-signal models of this repository
(`src/models/demand_ninja.py` and `src/models/wind.py`) together with
theorems settling the specification claims about them.

Modelling conventions:
* A gridded series is modelled along its time-step dimension as a
  `List RVal`; auxiliary dimensions are broadcast unchanged by every
  operation considered here, so a single slice is fully representative.
* A cell value `RVal` is `Option ℚ`: `some q` is a finite double (exact
  rationals stand in for IEEE doubles; rounding is out of scope for the
  claims treated here, which are exact identities), `none` is NaN.
  Division by zero is also mapped to `none` (undefined); no claim below
  distinguishes infinities from NaN, and in every theorem whose truth
  needs it the divisor is hypothesised nonzero.
* IEEE comparison semantics: any comparison against NaN is false, which
  is how `xr.where(cond, a, b)` selects its `b` branch at NaN cells.
* `np.exp` is an abstract parameter `expf : ℚ → ℚ` (the exact
  exponential is transcendental); every theorem that touches it either
  quantifies over all positive-valued `expf` or never evaluates it.
* The exception raised by a failed `assert` is modelled by `Except`.
-/

/-- A cell of a gridded series: `some q` is a finite value, `none` is NaN. -/
abbrev RVal := Option ℚ

/-- IEEE addition on cells: NaN absorbs. -/
def addV : RVal → RVal → RVal
  | some a, some b => some (a + b)
  | _, _ => none

/-- IEEE subtraction on cells: NaN absorbs. -/
def subV : RVal → RVal → RVal
  | some a, some b => some (a - b)
  | _, _ => none

/-- IEEE multiplication on cells: NaN absorbs (also `0 * NaN = NaN`). -/
def mulV : RVal → RVal → RVal
  | some a, some b => some (a * b)
  | _, _ => none

/-- Division on cells: NaN absorbs, and division by zero is undefined
(`none`); the claims below never rely on a signed-infinity result. -/
def divV : RVal → RVal → RVal
  | some a, some b => if b = 0 then none else some (a / b)
  | _, _ => none

/-- `v.where(v <= bound, other)` from xarray: keep `v` where the
comparison holds, `other` elsewhere; a NaN comparison is false. -/
def whereLeV (v : RVal) (bound : ℚ) (other : RVal) : RVal :=
  match v with
  | some x => if x ≤ bound then some x else other
  | none => other

/-- `v.where(v >= bound, other)` from xarray: keep `v` where the
comparison holds, `other` elsewhere; a NaN comparison is false. -/
def whereGeV (v : RVal) (bound : ℚ) (other : RVal) : RVal :=
  match v with
  | some x => if bound ≤ x then some x else other
  | none => other

/-- `get_hdd` from `demand_ninja.py`:
`xr.where(temperature < threshold, threshold - temperature, 0)`.
At a NaN cell the comparison is false, so the result is the scalar `0`. -/
def get_hdd (temperature : List RVal) (threshold : ℚ) : List RVal :=
  temperature.map (fun v =>
    match v with
    | some x => if x < threshold then some (threshold - x) else some 0
    | none => some 0)

/-- `get_cdd` from `demand_ninja.py`:
`xr.where(temperature > threshold, temperature - threshold, 0)`.
At a NaN cell the comparison is false, so the result is the scalar `0`. -/
def get_cdd (temperature : List RVal) (threshold : ℚ) : List RVal :=
  temperature.map (fun v =>
    match v with
    | some x => if threshold < x then some (x - threshold) else some 0
    | none => some 0)

/-- `calculate_wind_power_potential` from `wind.py`.  `powf x a` stands
for the real power `x ** a` of the height-extrapolation step (an
abstract parameter, since rational exponents are transcendental); the
claims below use the default `hub_height = None`, on which `powf` is
never evaluated.  Air density is the source constant `1.225`. -/
def calculate_wind_power_potential (powf : ℚ → ℚ → ℚ) (da_wind : List RVal)
    (hub_height : Option ℚ) (alpha cap_speed cut_out_speed cut_in_speed : ℚ) :
    List RVal :=
  let da1 := match hub_height with
    | some h =>
        if h ≠ 100 then da_wind.map (fun v => mulV v (some (powf (h / 100) alpha)))
        else da_wind
    | none => da_wind
  let da2 := da1.map (fun v => whereLeV v cut_out_speed (some 0))
  let da3 := da2.map (fun v => whereGeV v cut_in_speed (some 0))
  let da4 := da3.map (fun v => whereLeV v cap_speed (some cap_speed))
  da4.map (fun v =>
    match v with
    | some x => some (1 / 2 * (1225 / 1000) * x ^ 3)
    | none => none)

/-- Stand-in used only to instantiate the abstract `powf` parameter in
closed witness statements (never evaluated when `hub_height = none`). -/
def powStub : ℚ → ℚ → ℚ := fun _ _ => 1

/-- C4 counterexample: a NaN temperature cell does NOT propagate as NaN
through `get_hdd`/`get_cdd` — both map it to `0`, because the
`xr.where` comparison against NaN is false and the else branch is the
scalar `0`. -/
theorem c4_nan_propagation_counterexample :
    (get_hdd [none] 15)[0]? = some (some 0) ∧
    (get_cdd [none] 15)[0]? = some (some 0) ∧
    ¬ (get_hdd [none] 15)[0]? = some none ∧
    ¬ (get_cdd [none] 15)[0]? = some none := by
  refine ⟨rfl, rfl, ?_, ?_⟩ <;> simp [get_hdd, get_cdd]

/-- C4 (amended): a NaN cell of the temperature input yields `0` (not
NaN) at the same cell of both `get_hdd` and `get_cdd`, for every
temperature series and threshold. -/
theorem c4_nan_to_zero (T : List RVal) (th : ℚ) (i : Nat)
    (h : T[i]? = some none) :
    (get_hdd T th)[i]? = some (some 0) ∧
    (get_cdd T th)[i]? = some (some 0) := by
  constructor
  · simp [get_hdd, List.getElem?_map, h]
  · simp [get_cdd, List.getElem?_map, h]

/-- C4 witness: the amended statement at the concrete input `[none]`,
threshold `15`. -/
theorem c4_nan_to_zero_witness :
    (get_hdd [none] 15)[0]? = some (some 0) ∧
    (get_cdd [none] 15)[0]? = some (some 0) :=
  c4_nan_to_zero [none] 15 0 rfl

/-- C7 counterexample: at a NaN temperature cell the identity
`hdd - cdd = base - T` fails: both degree-day outputs are `0`, so their
difference is `0`, while `base - T` is NaN. -/
theorem c7_identity_counterexample :
    List.zipWith subV (get_hdd [none] 1) (get_cdd [none] 1) = [some 0] ∧
    ([none] : List RVal).map (fun v => subV (some 1) v) = [none] ∧
    ([some 0] : List RVal) ≠ [none] := by
  refine ⟨?_, by simp [subV], by simp⟩
  simp [get_hdd, get_cdd, subV]

/-- C7 (amended): `get_hdd` and `get_cdd` are non-negative at every
cell (a NaN cell yields `0`), and at every non-NaN cell the identity
`hdd - cdd = base - T` holds; at NaN cells the difference is `0` while
`base - T` is NaN. -/
theorem c7_degree_day_identity (T : List RVal) (b : ℚ) :
    (∀ v ∈ get_hdd T b, ∃ q, v = some q ∧ 0 ≤ q) ∧
    (∀ v ∈ get_cdd T b, ∃ q, v = some q ∧ 0 ≤ q) ∧
    (∀ i x, T[i]? = some (some x) →
      subV ((get_hdd T b).getD i none) ((get_cdd T b).getD i none)
        = some (b - x)) := by
  refine ⟨?_, ?_, ?_⟩
  · intro v hv
    simp only [get_hdd, List.mem_map] at hv
    obtain ⟨c, _, hc⟩ := hv
    match c with
    | none => exact ⟨0, hc.symm, le_refl 0⟩
    | some x =>
      by_cases hxb : x < b
      · exact ⟨b - x, by simpa [hxb] using hc.symm, by linarith⟩
      · exact ⟨0, by simpa [hxb] using hc.symm, le_refl 0⟩
  · intro v hv
    simp only [get_cdd, List.mem_map] at hv
    obtain ⟨c, _, hc⟩ := hv
    match c with
    | none => exact ⟨0, hc.symm, le_refl 0⟩
    | some x =>
      by_cases hbx : b < x
      · exact ⟨x - b, by simpa [hbx] using hc.symm, by linarith⟩
      · exact ⟨0, by simpa [hbx] using hc.symm, le_refl 0⟩
  · intro i x hx
    have hh : (get_hdd T b).getD i none
        = (if x < b then some (b - x) else some 0) := by
      simp [get_hdd, List.getD_eq_getElem?_getD, List.getElem?_map, hx]
    have hc : (get_cdd T b).getD i none
        = (if b < x then some (x - b) else some 0) := by
      simp [get_cdd, List.getD_eq_getElem?_getD, List.getElem?_map, hx]
    rw [hh, hc]
    by_cases h1 : x < b
    · have h2 : ¬ b < x := by linarith
      simp [h1, h2, subV]
    · by_cases h2 : b < x
      · simp [h1, h2, subV, neg_sub]
      · have h3 : x = b := le_antisymm (not_lt.mp h2) (not_lt.mp h1)
        simp [h1, h2, subV, h3]

/-- C7 witness: the amended identity at the concrete cell `T = 1`,
`base = 3`. -/
theorem c7_degree_day_identity_witness :
    subV ((get_hdd [some 1] 3).getD 0 none) ((get_cdd [some 1] 3).getD 0 none)
      = some 2 := by
  have h := (c7_degree_day_identity [some 1] 3).2.2 0 1 rfl
  norm_num at h
  exact h

/-- C10: the pointwise product of `get_hdd` and `get_cdd` is the zero
series for every input, NaN cells included (both factors are `0`
there). -/
theorem c10_hdd_cdd_product (T : List RVal) (b : ℚ) :
    List.zipWith mulV (get_hdd T b) (get_cdd T b)
      = List.replicate T.length (some 0) := by
  induction T with
  | nil => rfl
  | cons v rest ih =>
    have hcell : mulV
        (match v with
          | some x => if x < b then some (b - x) else some 0
          | none => some 0)
        (match v with
          | some x => if b < x then some (x - b) else some 0
          | none => some 0) = some 0 := by
      match v with
      | none => simp [mulV]
      | some x =>
        by_cases h1 : x < b
        · have h2 : ¬ b < x := by linarith
          simp [h1, h2, mulV]
        · by_cases h2 : b < x
          · simp [h1, h2, mulV]
          · simp [h1, h2, mulV]
    simpa [get_hdd, get_cdd, List.replicate_succ, hcell] using ih

/-- C8: with default thresholds and no hub-height extrapolation, the
wind power density is exactly `0` below the cut-in speed and above the
cut-out speed, and exactly `0.5 * 1.225 * cap_speed ^ 3` for speeds in
`[cap_speed, cut_out_speed)`. -/
theorem c8_wind_power_clipping (powf : ℚ → ℚ → ℚ) (wind : List RVal)
    (i : Nat) (x : ℚ) (hx : wind[i]? = some (some x)) :
    ((x < 3 ∨ 25 < x) →
      (calculate_wind_power_potential powf wind none (1/7) 11 25 3)[i]?
        = some (some 0)) ∧
    (11 ≤ x → x < 25 →
      (calculate_wind_power_potential powf wind none (1/7) 11 25 3)[i]?
        = some (some (1/2 * (1225/1000) * 11 ^ 3))) := by
  constructor
  · rintro (h3 | h25)
    · have hle : x ≤ 25 := by linarith
      have hnge : ¬ (3 ≤ x) := by linarith
      simp [calculate_wind_power_potential, List.getElem?_map, hx,
        whereLeV, whereGeV, hle, hnge]
    · have hnle : ¬ (x ≤ 25) := by linarith
      simp [calculate_wind_power_potential, List.getElem?_map, hx,
        whereLeV, whereGeV, hnle]
  · intro h11 h25
    have hle : x ≤ 25 := by linarith
    have hge : (3:ℚ) ≤ x := by linarith
    by_cases hcap : x ≤ 11
    · have hx11 : x = 11 := le_antisymm hcap h11
      subst hx11
      norm_num [calculate_wind_power_potential, List.getElem?_map, hx,
        whereLeV, whereGeV]
    · simp [calculate_wind_power_potential, List.getElem?_map, hx,
        whereLeV, whereGeV, hle, hge, hcap]

/-- C8 witness: concrete cells at 2.9 m/s (below cut-in) and 12 m/s
(between cap and cut-out). -/
theorem c8_wind_power_clipping_witness :
    (calculate_wind_power_potential powStub [some (29/10), some 12] none
        (1/7) 11 25 3)[0]? = some (some 0) ∧
    (calculate_wind_power_potential powStub [some (29/10), some 12] none
        (1/7) 11 25 3)[1]? = some (some (1/2 * (1225/1000) * 11 ^ 3)) := by
  constructor
  · exact (c8_wind_power_clipping powStub [some (29/10), some 12] 0 (29/10)
      rfl).1 (Or.inl (by norm_num))
  · exact (c8_wind_power_clipping powStub [some (29/10), some 12] 1 12
      rfl).2 (by norm_num) (by norm_num)

/-- Chronological rolling window of width `W` ending at step `t`:
entry `j` (for `j < W`) is the series value at position
`t + 1 + j - W`, or NaN padding where that position lies before the
start of the series.  This models
`temperature.rolling(step=W, min_periods=1).construct('window')` at
step `t`: xarray pads incomplete windows with NaN regardless of
`min_periods`, which only affects reduction methods. -/
def window (xs : List RVal) : Nat → Nat → List RVal
  | 0, _ => []
  | W+1, t => (if t < W then none else xs.getD (t - W) none) :: window xs W t

/-- `.fillna(fv)`: replace NaN cells by `fv` (with `fv = NaN` this is
the identity, matching the `keep_all_days=False` branch). -/
def fillna (fv : RVal) (l : List RVal) : List RVal :=
  l.map (fun x => match x with | none => fv | some a => some a)

/-- `.dot(weights_da, dims=['window'])`: einsum weighted sum over the
window dimension; NaN propagates through products and sums. -/
def dotV : List ℚ → List RVal → RVal
  | w :: ws, x :: xs => addV (mulV (some w) x) (dotV ws xs)
  | _, _ => some 0

/-- Slice assignment `arr[:k] = v` on a rational array. -/
def writeFirstK : List ℚ → Nat → ℚ → List ℚ
  | [], _, _ => []
  | x :: xs, 0, _ => x :: xs
  | _ :: xs, k+1, v => v :: writeFirstK xs k v

/-- One iteration of the `keep_all_days` renormalization loop, exactly
as written in the source: iteration `i` assigns the sum of the last
`i+1` chronological weights (`np.sum(weights[-(i+1):])`) to positions
`0..i` (`normalization_factors[:i+1] = truncated_weights_sum`). -/
def nfStep (wc : List ℚ) (acc : List ℚ) (i : Nat) : List ℚ :=
  writeFirstK acc (i+1) ((wc.drop (wc.length - (i+1))).sum)

/-- The whole renormalization loop: starting from
`xr.full_like(smoothed, total_weights_sum)` and running `nfStep` for
`i in range(len(weights))`. -/
def normalizationFactors (wc : List ℚ) (n : Nat) : List ℚ :=
  (List.range wc.length).foldl (nfStep wc) (List.replicate n wc.sum)

/-- Core of `smooth_temperature_xarray` (everything after the assert):
reverse the weights to chronological order, take the rolling window at
each step, fill NaN with `0` when `keep_all_days` (otherwise the fill
value is NaN, a no-op), apply the weighted sum, and normalize — by the
loop-produced factors when `keep_all_days`, by the total sum
otherwise. -/
def smoothRun (temperature : List RVal) (weights : List ℚ)
    (keep_all_days : Bool) : List RVal :=
  let wc := weights.reverse
  let fv : RVal := if keep_all_days then some 0 else none
  let smoothed := (List.range temperature.length).map
    (fun t => dotV wc (fillna fv (window temperature wc.length t)))
  if keep_all_days then
    List.zipWith (fun x f => divV x (some f)) smoothed
      (normalizationFactors wc temperature.length)
  else
    smoothed.map (fun x => divV x (some wc.sum))

/-- `smooth_temperature_xarray` from `demand_ninja.py`: when
`keep_all_days` is set, the assert `temperature.isnull().sum() == 0`
fires before anything is computed; the raised `AssertionError` is the
`.error` case. -/
def smooth_temperature_xarray (temperature : List RVal) (weights : List ℚ)
    (keep_all_days : Bool) : Except Unit (List RVal) :=
  if keep_all_days && temperature.any (fun x => x.isNone) then .error ()
  else .ok (smoothRun temperature weights keep_all_days)

theorem fillna_none_id (l : List RVal) : fillna none l = l := by
  induction l with
  | nil => rfl
  | cons x xs ih => cases x <;> simpa [fillna] using ih

theorem addV_none_right (a : RVal) : addV a none = none := by
  cases a <;> rfl

theorem addV_none_left (b : RVal) : addV none b = none := by
  cases b <;> rfl

theorem dotV_eq_none_iff (w : List ℚ) (l : List RVal)
    (h : w.length = l.length) : dotV w l = none ↔ none ∈ l := by
  induction w generalizing l with
  | nil =>
    cases l with
    | nil => simp [dotV]
    | cons x xs => simp at h
  | cons a as ih =>
    cases l with
    | nil => simp at h
    | cons x xs =>
      simp only [List.length_cons, Nat.succ.injEq] at h
      cases x with
      | none => simp [dotV, mulV, addV_none_left]
      | some q =>
        have : addV (mulV (some a) (some q)) (dotV as xs) = none
            ↔ dotV as xs = none := by
          cases hd : dotV as xs <;> simp [addV, mulV]
        rw [dotV, this, ih xs h]
        simp

theorem dotV_eq_sum (w : List ℚ) (l : List RVal)
    (h : w.length = l.length) (hcl : ¬ none ∈ l) :
    dotV w l = some (∑ j ∈ Finset.range w.length,
      w.getD j 0 * ((l.getD j none).getD 0)) := by
  induction w generalizing l with
  | nil =>
    cases l with
    | nil => simp [dotV]
    | cons x xs => simp at h
  | cons a as ih =>
    cases l with
    | nil => simp at h
    | cons x xs =>
      simp only [List.length_cons, Nat.succ.injEq] at h
      obtain ⟨q, rfl⟩ : ∃ q, x = some q := by
        cases x with
        | none => simp at hcl
        | some q => exact ⟨q, rfl⟩
      have hxs : ¬ none ∈ xs := fun hmem => hcl (List.mem_cons_of_mem _ hmem)
      rw [dotV, ih xs h hxs]
      simp only [addV, mulV, List.length_cons]
      rw [Finset.sum_range_succ']
      simp [add_comm]

theorem window_length (xs : List RVal) (W t : Nat) :
    (window xs W t).length = W := by
  induction W generalizing t with
  | zero => rfl
  | succ W ih => simp [window, ih]

theorem window_getElem? (xs : List RVal) (W t j : Nat) :
    (window xs W t)[j]? =
      if j < W then
        some (if t + 1 + j < W then none else xs.getD (t + 1 + j - W) none)
      else none := by
  induction W generalizing t j with
  | zero => simp [window]
  | succ W ih =>
    cases j with
    | zero =>
      by_cases hc : t < W
      · simp [window, hc, show t + 1 + 0 < W + 1 by omega]
      · simp [window, hc, show ¬ (t + 1 + 0 < W + 1) by omega,
          show t + 1 + 0 - (W + 1) = t - W by omega]
    | succ j =>
      rw [window]
      simp only [List.getElem?_cons_succ, ih]
      by_cases hj : j < W
      · by_cases hp : t + 1 + j < W
        · simp [hj, hp, show j + 1 < W + 1 by omega,
            show t + 1 + (j + 1) < W + 1 by omega]
        · simp [hj, hp, show j + 1 < W + 1 by omega,
            show ¬ (t + 1 + (j + 1) < W + 1) by omega,
            show t + 1 + (j + 1) - (W + 1) = t + 1 + j - W by omega]
      · simp [hj, show ¬ (j + 1 < W + 1) by omega]

theorem none_mem_window_iff (xs : List RVal) (W t : Nat) :
    none ∈ window xs W t ↔
      ∃ j, j < W ∧
        (t + 1 + j < W ∨ xs.getD (t + 1 + j - W) none = none) := by
  rw [List.mem_iff_getElem?]
  constructor
  · rintro ⟨j, hj⟩
    rw [window_getElem?] at hj
    by_cases hjW : j < W
    · refine ⟨j, hjW, ?_⟩
      simp only [hjW, if_true] at hj
      by_cases hp : t + 1 + j < W
      · exact Or.inl hp
      · simp only [hp, if_false] at hj
        exact Or.inr (Option.some.inj hj)
    · simp [hjW] at hj
  · rintro ⟨j, hjW, hj⟩
    refine ⟨j, ?_⟩
    rw [window_getElem?]
    simp only [hjW, if_true]
    rcases hj with hp | hv
    · simp [hp]
    · by_cases hp : t + 1 + j < W
      · simp [hp]
      · simp only [hp, if_false]
        rw [List.getD_eq_getElem?_getD] at hv
        simp [hv]

theorem writeFirstK_length (l : List ℚ) (k : Nat) (v : ℚ) :
    (writeFirstK l k v).length = l.length := by
  induction l generalizing k with
  | nil => rfl
  | cons x xs ih =>
    cases k with
    | zero => rfl
    | succ k => simp [writeFirstK, ih]

theorem writeFirstK_getElem? (l : List ℚ) (k : Nat) (v : ℚ) (p : Nat) :
    (writeFirstK l k v)[p]? =
      if p < k ∧ p < l.length then some v else l[p]? := by
  induction l generalizing k p with
  | nil => simp [writeFirstK]
  | cons x xs ih =>
    cases k with
    | zero => simp [writeFirstK]
    | succ k =>
      cases p with
      | zero => simp [writeFirstK]
      | succ p =>
        rw [writeFirstK]
        simp only [List.getElem?_cons_succ, ih, List.length_cons]
        by_cases h1 : p < k ∧ p < xs.length
        · simp [h1, show p + 1 < k + 1 ∧ p + 1 < xs.length + 1 by omega]
        · simp [h1, show ¬ (p + 1 < k + 1 ∧ p + 1 < xs.length + 1) by omega]

theorem nfLoop_length (wc : List ℚ) (m : Nat) (acc : List ℚ) :
    ((List.range m).foldl (nfStep wc) acc).length = acc.length := by
  induction m generalizing acc with
  | zero => rfl
  | succ m ih =>
    rw [List.range_succ, List.foldl_append]
    simp [nfStep, writeFirstK_length, ih]

theorem nfLoop_getElem? (wc : List ℚ) (m : Nat) (acc : List ℚ) (p : Nat) :
    ((List.range m).foldl (nfStep wc) acc)[p]? =
      if p < m ∧ p < acc.length
      then some ((wc.drop (wc.length - m)).sum) else acc[p]? := by
  induction m generalizing p with
  | zero => simp
  | succ m ih =>
    rw [List.range_succ, List.foldl_append]
    simp only [List.foldl_cons, List.foldl_nil, nfStep,
      writeFirstK_getElem?, nfLoop_length, ih]
    by_cases h1 : p < m + 1 ∧ p < acc.length
    · simp [h1]
    · have h2 : ¬ (p < m ∧ p < acc.length) := by omega
      simp [h1, h2]

theorem normalizationFactors_eq (wc : List ℚ) (n : Nat) :
    normalizationFactors wc n = List.replicate n wc.sum := by
  apply List.ext_getElem?
  intro p
  rw [normalizationFactors, nfLoop_getElem?]
  simp only [List.length_replicate, Nat.sub_self, List.drop_zero,
    List.getElem?_replicate]
  by_cases h1 : p < wc.length ∧ p < n
  · simp [h1, h1.2]
  · simp [h1]

theorem zipWith_divV_replicate (l : List RVal) (c : ℚ) (n : Nat)
    (hn : n = l.length) :
    List.zipWith (fun x f => divV x (some f)) l (List.replicate n c)
      = l.map (fun x => divV x (some c)) := by
  subst hn
  induction l with
  | nil => rfl
  | cons x xs ih => simp [List.replicate_succ, ih]

theorem smoothRun_length (xs : List RVal) (w : List ℚ) (kad : Bool) :
    (smoothRun xs w kad).length = xs.length := by
  cases kad with
  | false => simp [smoothRun]
  | true =>
    simp [smoothRun, normalizationFactors, nfLoop_length]

theorem smoothRun_false_getElem? (xs : List RVal) (w : List ℚ) (t : Nat)
    (ht : t < xs.length) :
    (smoothRun xs w false)[t]? =
      some (divV (dotV w.reverse (window xs w.length t)) (some w.sum)) := by
  simp [smoothRun, fillna_none_id, List.getElem?_map,
    List.getElem?_range ht, List.length_reverse, List.sum_reverse]

theorem rangeMap_getD_eq_map (xs : List RVal) (f : RVal → RVal) :
    (List.range xs.length).map (fun t => f (xs.getD t none)) = xs.map f := by
  apply List.ext_getElem?
  intro t
  by_cases ht : t < xs.length
  · rcases hx : xs[t]? with _ | v
    · exact absurd (List.getElem?_eq_none_iff.mp hx) (by omega)
    · simp [List.getElem?_map, List.getElem?_range ht,
        List.getD_eq_getElem?_getD, hx]
  · have h1 : xs.length ≤ t := by omega
    simp [List.getElem?_map, List.getElem?_eq_none h1,
      List.getElem?_eq_none (show (List.range xs.length).length ≤ t by
        simpa using h1)]

/-- C1: contrary to the claim, the `keep_all_days` path divides EVERY
step — the first W-1 included — by the FULL weight sum.  The
renormalization loop's slice assignments overwrite one another
(`normalization_factors[:i+1] = ...` for growing `i`), so its final
iteration resets all of the first W positions to the full sum
(`normalizationFactors_eq`).  Hence each output cell is the zero-filled
windowed weighted sum divided by the full sum, with no truncated-window
divisor anywhere. -/
theorem c1_keep_all_days_full_sum_divisor (xs : List RVal) (w : List ℚ)
    (t : Nat) (ht : t < xs.length) :
    (smoothRun xs w true)[t]? =
      some (divV (dotV w.reverse (fillna (some 0) (window xs w.length t)))
        (some w.sum)) := by
  have hlen : xs.length
      = ((List.range xs.length).map (fun s => dotV w.reverse
          (fillna (some 0) (window xs w.reverse.length s)))).length := by
    simp
  rw [show smoothRun xs w true
      = List.zipWith (fun x f => divV x (some f))
          ((List.range xs.length).map (fun s => dotV w.reverse
            (fillna (some 0) (window xs w.reverse.length s))))
          (normalizationFactors w.reverse xs.length) from rfl]
  rw [normalizationFactors_eq, zipWith_divV_replicate _ _ _ hlen]
  simp [List.getElem?_map, List.getElem?_range ht, List.length_reverse,
    List.sum_reverse]

/-- C1 witness, which is also the failing input for the claim: with
most-recent-first weights `[1, 1]` and constant input `2`, step 0 is
divided by the full sum `2` (output `1`), not by the truncated sum `1`
(which would output `2`) as the claim demands. -/
theorem c1_keep_all_days_full_sum_divisor_witness :
    (smoothRun [some 2, some 2] [1, 1] true)[0]? = some (some 1) := by
  have h := c1_keep_all_days_full_sum_divisor [some 2, some 2] [1, 1] 0
    (by norm_num)
  norm_num [window, fillna, dotV, addV, mulV, divV] at h
  exact h

/-- C5: with `keep_all_days = true`, any NaN anywhere in the input
makes `smooth_temperature_xarray` fail (the assert raises, modelled as
`.error`) before any output is produced; it never silently proceeds. -/
theorem c5_keep_all_days_nan_fails (xs : List RVal) (w : List ℚ)
    (h : none ∈ xs) :
    smooth_temperature_xarray xs w true = .error () := by
  have hany : xs.any (fun x => x.isNone) = true :=
    List.any_eq_true.mpr ⟨none, h, rfl⟩
  simp [smooth_temperature_xarray, hany]

/-- C5 witness: the concrete input `[none]` with weights `[1]`. -/
theorem c5_keep_all_days_nan_fails_witness :
    smooth_temperature_xarray [none] [1] true = .error () :=
  c5_keep_all_days_nan_fails [none] [1] (List.mem_singleton.mpr rfl)

/-- C9: with a weight vector of length 1 and `keep_all_days = false`,
`smooth` maps each element `x` to `(x * weight[0]) / weight[0]`; for
any nonzero `weight[0]` this is the identity transform on the whole
series (NaN cells included). -/
theorem c9_weight_singleton (xs : List RVal) (q : ℚ) :
    smooth_temperature_xarray xs [q] false
      = .ok (xs.map (fun x => divV (mulV x (some q)) (some q))) ∧
    (q ≠ 0 → smooth_temperature_xarray xs [q] false = .ok xs) := by
  have hcell : ∀ v : RVal,
      divV (addV (mulV (some q) v) (some 0)) (some q)
        = divV (mulV v (some q)) (some q) := by
    intro v
    cases v with
    | none => simp [addV, mulV, divV, addV_none_left]
    | some a => simp [addV, mulV, divV, add_zero, mul_comm]
  have h1 : smoothRun xs [q] false
      = (List.range xs.length).map
          (fun t => divV (addV (mulV (some q) (xs.getD t none)) (some 0))
            (some q)) := by
    simp only [smoothRun, fillna_none_id, window, dotV]
    simp [window, dotV, fillna]
    intro a _
    cases xs[a]?.getD none <;> rfl
  have hmain : smoothRun xs [q] false
      = xs.map (fun x => divV (mulV x (some q)) (some q)) := by
    rw [h1, List.map_congr_left (fun t _ => hcell (xs.getD t none))]
    exact rangeMap_getD_eq_map xs (fun x => divV (mulV x (some q)) (some q))
  constructor
  · simp [smooth_temperature_xarray, hmain]
  · intro hq
    have hid : ∀ x : RVal, divV (mulV x (some q)) (some q) = x := by
      intro x
      cases x with
      | none => simp [mulV, divV]
      | some a => simp [mulV, divV, hq, mul_div_cancel_right₀]
    simp [smooth_temperature_xarray, hmain, List.map_id'' hid]

/-- C9 witness: weights `[2]` on the series `[3, NaN]` return the
series unchanged. -/
theorem c9_weight_singleton_witness :
    smooth_temperature_xarray [some 3, none] [2] false
      = .ok [some 3, none] :=
  (c9_weight_singleton [some 3, none] 2).2 (by norm_num)

theorem divV_none_left (b : RVal) : divV none b = none := by
  cases b <;> rfl

theorem getD_none_to_getElem? (xs : List RVal) (idx : Nat)
    (hidx : idx < xs.length) (h : xs.getD idx none = none) :
    xs[idx]? = some none := by
  rw [List.getD_eq_getElem?_getD] at h
  rcases hx : xs[idx]? with _ | v
  · exact absurd (List.getElem?_eq_none_iff.mp hx) (by omega)
  · rw [hx] at h
    simp at h
    subst h
    rfl

theorem getElem?_to_getD_none (xs : List RVal) (idx : Nat)
    (h : xs[idx]? = some none) : xs.getD idx none = none := by
  rw [List.getD_eq_getElem?_getD, h]
  rfl

theorem getD_ne_none_of_not_mem (xs : List RVal) (hclean : ¬ none ∈ xs)
    (idx : Nat) (hidx : idx < xs.length) : xs.getD idx none ≠ none := by
  intro h
  exact hclean (List.getElem?_mem (getD_none_to_getElem? xs idx hidx h))

/-- Reindexing the chronological window sum into the
most-recent-first offset form used by the specification:
`Σ_j wc[j] * window[j] = Σ_o weights[o] * series[t - o]` for steps with
a full window. -/
theorem window_sum_reindex (xs : List RVal) (w : List ℚ) (t : Nat)
    (hW : 1 ≤ w.length) (ht : w.length - 1 ≤ t) :
    ∑ j ∈ Finset.range w.reverse.length,
      w.reverse.getD j 0 * (((window xs w.length t).getD j none).getD 0)
    = ∑ o ∈ Finset.range w.length,
        w.getD o 0 * ((xs.getD (t - o) none).getD 0) := by
  rw [List.length_reverse]
  rw [← Finset.sum_range_reflect]
  apply Finset.sum_congr rfl
  intro o ho
  rw [Finset.mem_range] at ho
  have hwgt : w.reverse.getD (w.length - 1 - o) 0 = w.getD o 0 := by
    rw [List.getD_eq_getElem?_getD, List.getD_eq_getElem?_getD,
      List.getElem?_reverse (by omega),
      show w.length - 1 - (w.length - 1 - o) = o by omega]
  have hwin : (window xs w.length t).getD (w.length - 1 - o) none
      = xs.getD (t - o) none := by
    rw [List.getD_eq_getElem?_getD, window_getElem?]
    rw [if_pos (by omega : w.length - 1 - o < w.length),
      if_neg (by omega : ¬ (t + 1 + (w.length - 1 - o) < w.length)),
      show t + 1 + (w.length - 1 - o) - w.length = t - o by omega]
    rfl
  rw [hwgt, hwin]

/-- C3 counterexample: for `keep_all_days=false`, weights `[1, 1]` and
the fully-populated series `[1, 2]`, the truncated-window step 0 is
NaN — not the finite `(1*1)/2 = 0.5` the claim predicts (step 1, with a
full window, is `(1*1 + 1*2)/2 = 1.5`). -/
theorem c3_warmup_counterexample :
    smooth_temperature_xarray [some 1, some 2] [1, 1] false
      = .ok [none, some (3/2)] ∧
    ¬ smooth_temperature_xarray [some 1, some 2] [1, 1] false
      = .ok [some (1/2), some (3/2)] := by
  have h : smooth_temperature_xarray [some 1, some 2] [1, 1] false
      = .ok [none, some (3/2)] := by
    simp [smooth_temperature_xarray, smoothRun, fillna_none_id,
      List.range_succ, window, dotV, addV, mulV, divV, addV_none_left]
    norm_num
  refine ⟨h, ?_⟩
  rw [h]
  simp

/-- C3 (amended): for `keep_all_days=false` on a series with no
missing values, every step with fewer than W-1 prior steps is NaN (the
padded window positions hold NaN, which propagates through the weighted
sum), while every step with a full window equals the windowed weighted
sum `Σ_o weights[o] * series[t-o]` divided by the total weight sum. -/
theorem c3_smooth_warmup (xs : List RVal) (w : List ℚ)
    (hW : 1 ≤ w.length) (hclean : ¬ none ∈ xs)
    (t : Nat) (ht : t < xs.length) :
    (t < w.length - 1 → (smoothRun xs w false)[t]? = some none) ∧
    (w.length - 1 ≤ t → w.sum ≠ 0 →
      (smoothRun xs w false)[t]?
        = some (some ((∑ o ∈ Finset.range w.length,
            w.getD o 0 * ((xs.getD (t - o) none).getD 0)) / w.sum))) := by
  have hlen : w.reverse.length = (window xs w.length t).length := by
    simp [window_length]
  rw [smoothRun_false_getElem? xs w t ht]
  constructor
  · intro htW
    have hmem : none ∈ window xs w.length t := by
      rw [none_mem_window_iff]
      exact ⟨0, by omega, Or.inl (by omega)⟩
    rw [(dotV_eq_none_iff _ _ hlen).mpr hmem, divV_none_left]
  · intro htW hsum
    have hnomem : ¬ none ∈ window xs w.length t := by
      rw [none_mem_window_iff]
      rintro ⟨j, hjW, hp | hv⟩
      · omega
      · exact getD_ne_none_of_not_mem xs hclean _ (by omega) hv
    rw [dotV_eq_sum _ _ hlen hnomem]
    rw [window_sum_reindex xs w t hW htW]
    simp [divV, hsum]

/-- C3 witness: the amended statement at weights `[1, 1]`, series
`[1, 2]`, step 0 (the truncated-window step, which is NaN). -/
theorem c3_smooth_warmup_witness :
    (smoothRun [some 1, some 2] [1, 1] false)[0]? = some none :=
  (c3_smooth_warmup [some 1, some 2] [1, 1] (by norm_num) (by simp) 0
    (by norm_num)).1 (by norm_num)

/-- C6 counterexample: weights `[1, 1]` (W = 2), series
`[1, 1, NaN, 1, 1]`, NaN at step t = 2 ≥ W-1.  The output is NaN at
step 0 as well (warm-up padding), so the NaN output set is not
"exactly" the steps t..t+W-1 = {2, 3}. -/
theorem c6_exactness_counterexample :
    (smoothRun [some 1, some 1, none, some 1, some 1] [1, 1] false)[0]?
      = some none ∧
    ¬ (2 ≤ (0:Nat) ∧ (0:Nat) ≤ 3) := by
  refine ⟨?_, by omega⟩
  rw [smoothRun_false_getElem? _ _ 0 (by norm_num)]
  simp [window, dotV, addV, mulV, divV, addV_none_left]

/-- C6 (amended): for `keep_all_days=false`, weights of length W ≥ 1
with nonzero sum, and a series whose only NaN sits at step t with
W-1 ≤ t, the output at an in-range step s is NaN exactly when s lies
in the warm-up region (s < W-1, from window padding) or in t..t+W-1;
in particular no step past t+W-1 is NaN. -/
theorem c6_nan_window_propagation (xs : List RVal) (w : List ℚ) (t : Nat)
    (hW : 1 ≤ w.length) (hsum : w.sum ≠ 0)
    (ht : w.length - 1 ≤ t) (htlen : t < xs.length)
    (hnan : xs[t]? = some none)
    (hother : ∀ p, p < xs.length → p ≠ t → xs[p]? ≠ some none)
    (s : Nat) (hs : s < xs.length) :
    ((smoothRun xs w false)[s]? = some none ↔
      (s < w.length - 1 ∨ (t ≤ s ∧ s ≤ t + w.length - 1))) := by
  have hlen : w.reverse.length = (window xs w.length s).length := by
    simp [window_length]
  rw [smoothRun_false_getElem? xs w s hs]
  constructor
  · intro h
    have hdiv : divV (dotV w.reverse (window xs w.length s)) (some w.sum)
        = none := Option.some.inj h
    have hdot : dotV w.reverse (window xs w.length s) = none := by
      rcases hd : dotV w.reverse (window xs w.length s) with _ | v
      · rfl
      · rw [hd] at hdiv
        simp [divV, hsum] at hdiv
    have hmem := (dotV_eq_none_iff _ _ hlen).mp hdot
    rw [none_mem_window_iff] at hmem
    obtain ⟨j, hjW, hj⟩ := hmem
    rcases hj with hp | hv
    · left; omega
    · by_cases hpad : s + 1 + j < w.length
      · left; omega
      · right
        have hidx : s + 1 + j - w.length < xs.length := by omega
        have heq : s + 1 + j - w.length = t := by
          by_contra hne
          exact hother _ hidx hne (getD_none_to_getElem? xs _ hidx hv)
        omega
  · intro h
    have hmem : none ∈ window xs w.length s := by
      rw [none_mem_window_iff]
      rcases h with h1 | ⟨h2, h3⟩
      · exact ⟨0, by omega, Or.inl (by omega)⟩
      · refine ⟨t + w.length - (s + 1), by omega, Or.inr ?_⟩
        rw [show s + 1 + (t + w.length - (s + 1)) - w.length = t by omega]
        exact getElem?_to_getD_none xs t hnan
    rw [(dotV_eq_none_iff _ _ hlen).mpr hmem, divV_none_left]

/-- C6 witness: the amended statement at weights `[1, 1]`, series
`[1, 1, NaN, 1, 1]`, t = 2, evaluated at step s = 3 (inside the
propagation range, hence NaN). -/
theorem c6_nan_window_propagation_witness :
    ((smoothRun [some 1, some 1, none, some 1, some 1] [1, 1] false)[3]?
      = some none ↔ ((3:Nat) < 2 - 1 ∨ (2 ≤ 3 ∧ (3:Nat) ≤ 2 + 2 - 1))) :=
  c6_nan_window_propagation [some 1, some 1, none, some 1, some 1] [1, 1] 2
    (by norm_num) (by norm_num [List.sum_cons]) (by norm_num) (by norm_num)
    rfl
    (by
      intro p hp hpt
      simp only [List.length_cons, List.length_nil] at hp
      interval_cases p <;> simp_all)
    3 (by norm_num)

theorem mulV_none_left (b : RVal) : mulV none b = none := by
  cases b <;> rfl

theorem list_sum_eq_sum_getD (l : List ℚ) :
    l.sum = ∑ j ∈ Finset.range l.length, l.getD j 0 := by
  induction l with
  | nil => simp
  | cons a as ih =>
    rw [List.sum_cons, List.length_cons, Finset.sum_range_succ']
    simp only [List.getD_cons_succ, List.getD_cons_zero]
    rw [← ih]
    ring

/-- Pointwise value of the smoother on a constant series with
`keep_all_days=false`: NaN on the warm-up steps, `(sum * c) / sum` on
full-window steps. -/
theorem smoothRun_const_getElem? (c : ℚ) (n : Nat) (w : List ℚ)
    (hW : 1 ≤ w.length) (t : Nat) (ht : t < n) :
    (smoothRun (List.replicate n (some c)) w false)[t]? =
      if t < w.length - 1 then some none
      else some (divV (some (w.sum * c)) (some w.sum)) := by
  rw [smoothRun_false_getElem? _ w t (by simpa using ht)]
  by_cases htW : t < w.length - 1
  · rw [if_pos htW]
    have hmem : none ∈ window (List.replicate n (some c)) w.length t :=
      (none_mem_window_iff _ _ _).mpr ⟨0, by omega, Or.inl (by omega)⟩
    rw [(dotV_eq_none_iff _ _ (by simp [window_length])).mpr hmem,
      divV_none_left]
  · rw [if_neg htW]
    have hnomem : ¬ none ∈ window (List.replicate n (some c)) w.length t := by
      rw [none_mem_window_iff]
      rintro ⟨j, hjW, hp | hv⟩
      · omega
      · rw [List.getD_eq_getElem?_getD, List.getElem?_replicate,
          if_pos (show t + 1 + j - w.length < n by omega)] at hv
        simp at hv
    have hwin : ∀ j, j < w.length →
        (window (List.replicate n (some c)) w.length t).getD j none
          = some c := by
      intro j hj
      rw [List.getD_eq_getElem?_getD, window_getElem?, if_pos hj,
        if_neg (show ¬ (t + 1 + j < w.length) by omega)]
      rw [List.getD_eq_getElem?_getD, List.getElem?_replicate,
        if_pos (show t + 1 + j - w.length < n by omega)]
      rfl
    have hsumval : (∑ j ∈ Finset.range w.reverse.length,
        w.reverse.getD j 0 *
          (((window (List.replicate n (some c)) w.length t).getD j none).getD 0))
        = w.sum * c := by
      calc (∑ j ∈ Finset.range w.reverse.length,
          w.reverse.getD j 0 *
            (((window (List.replicate n (some c)) w.length t).getD j none).getD 0))
          = ∑ j ∈ Finset.range w.reverse.length, w.reverse.getD j 0 * c := by
            apply Finset.sum_congr rfl
            intro j hj
            rw [Finset.mem_range, List.length_reverse] at hj
            rw [hwin j hj]
            rfl
        _ = w.sum * c := by
            rw [← Finset.sum_mul, ← list_sum_eq_sum_getD, List.sum_reverse]
    rw [dotV_eq_sum _ _ (by simp [window_length]) hnomem, hsumval]

/-- Setpoints, unsmoothed ninja index and humidity-amplified discomfort
of `_bait_xarray` (everything before the smoothing call):
`setpoint_S = 100 + 7 T`, `setpoint_W = 4.5 - 0.025 T`,
`setpoint_H = exp(1.1 + 0.06 T)/1000`, `setpoint_T = 16`,
`N = T + (radiation - setpoint_S) * solar_gains
      + (wind_speed - setpoint_W) * wind_chill`,
`discomfort = N - setpoint_T`,
result `= setpoint_T + discomfort
      + discomfort * (humidity - setpoint_H) * humidity_discomfort`
(humidity used in its native units, as in the source). -/
def baitPreSmooth (expf : ℚ → ℚ)
    (humidity radiation_global_horizontal temperature wind_speed_2m : List RVal)
    (solar_gains wind_chill humidity_discomfort : ℚ) : List RVal :=
  let T := temperature
  let setpoint_S := T.map (fun v => addV (some 100) (mulV (some 7) v))
  let setpoint_W := T.map (fun v => subV (some (9/2)) (mulV (some (1/40)) v))
  let setpoint_H := T.map (fun v =>
    match v with
    | some x => some (expf (11/10 + 3/50 * x) / 1000)
    | none => none)
  let setpoint_T : ℚ := 16
  let N := List.zipWith addV
    (List.zipWith addV T
      ((List.zipWith subV radiation_global_horizontal setpoint_S).map
        (fun v => mulV v (some solar_gains))))
    ((List.zipWith subV wind_speed_2m setpoint_W).map
      (fun v => mulV v (some wind_chill)))
  let discomfort := N.map (fun v => subV v (some setpoint_T))
  List.zipWith
    (fun d hs => addV (addV (some setpoint_T) d)
      (mulV (mulV d hs) (some humidity_discomfort)))
    discomfort (List.zipWith subV humidity setpoint_H)

/-- Sigmoid blend of `_bait_xarray` (everything after the smoothing
call): `blend = max_raw_var / (1 + exp(-(T - avg_blend) * 10 /
dif_blend))` with `avg_blend = 19`, `dif_blend = 8`,
`max_raw_var = 0.5`, and result `T * blend + N * (1 - blend)`. -/
def baitBlend (expf : ℚ → ℚ) (temperature N3 : List RVal) : List RVal :=
  let avg_blend : ℚ := (15 + 23) / 2
  let dif_blend : ℚ := 23 - 15
  let blend1 := temperature.map (fun v =>
    divV (mulV (subV v (some avg_blend)) (some 10)) (some dif_blend))
  let blend2 := blend1.map (fun v =>
    match v with
    | some x => divV (some (1/2)) (some (1 + expf (-x)))
    | none => none)
  List.zipWith addV (List.zipWith mulV temperature blend2)
    (List.zipWith mulV N3 (blend2.map (fun b => subV (some 1) b)))

/-- `_bait_xarray` from `demand_ninja.py`: the pre-smoothing index,
smoothed with the fixed most-recent-first weight vector
`[1]*4 + [smoothing]*4 + [smoothing^2]*4` and `keep_all_days=False`
(the call site uses the default), then sigmoid-blended with the raw
temperature.  The attrs assignment is cosmetic metadata and is not
modelled. -/
def _bait_xarray (expf : ℚ → ℚ)
    (humidity radiation_global_horizontal temperature wind_speed_2m : List RVal)
    (smoothing solar_gains wind_chill humidity_discomfort : ℚ) : List RVal :=
  baitBlend expf temperature
    (smoothRun
      (baitPreSmooth expf humidity radiation_global_horizontal temperature
        wind_speed_2m solar_gains wind_chill humidity_discomfort)
      (List.replicate 4 1 ++ List.replicate 4 smoothing
        ++ List.replicate 4 (smoothing ^ 2))
      false)

/-- The end-to-end scenario of the specification: 16 uniform steps. -/
def scenarioTemperature : List RVal := List.replicate 16 (some 20)

/-- Scenario radiation: constant 0. -/
def scenarioRadiation : List RVal := List.replicate 16 (some 0)

/-- Scenario wind speed: constant 0. -/
def scenarioWind : List RVal := List.replicate 16 (some 0)

/-- Scenario humidity: the constant `setpoint_H(20) = exp(2.3)/1000`. -/
def scenarioHumidity (expf : ℚ → ℚ) : List RVal :=
  List.replicate 16 (some (expf (23/10) / 1000))

/-- Stand-in positive function used only to instantiate the abstract
`expf` parameter in closed statements. -/
def expStub : ℚ → ℚ := fun _ => 1

theorem baitPreSmooth_scenario (expf : ℚ → ℚ) :
    baitPreSmooth expf (scenarioHumidity expf) scenarioRadiation
        scenarioTemperature scenarioWind 0 0 0
      = List.replicate 16 (some 20) := by
  simp only [baitPreSmooth, scenarioHumidity, scenarioRadiation,
    scenarioTemperature, scenarioWind, List.map_replicate,
    List.zipWith_replicate']
  norm_num [addV, mulV, subV]

theorem smoothRun_scenario_weights :
    smoothRun (List.replicate 16 (some (20:ℚ)))
        (List.replicate 4 1 ++ List.replicate 4 (1/2)
          ++ List.replicate 4 ((1/2) ^ 2)) false
      = List.replicate 11 none ++ List.replicate 5 (some 20) := by
  have hWlen : (List.replicate 4 (1:ℚ) ++ List.replicate 4 (1/2)
      ++ List.replicate 4 ((1/2) ^ 2)).length = 12 := by simp
  have hsum : (List.replicate 4 (1:ℚ) ++ List.replicate 4 (1/2)
      ++ List.replicate 4 ((1/2) ^ 2)).sum = 7 := by
    simp [List.sum_append, List.sum_replicate]
    norm_num
  apply List.ext_getElem?
  intro t
  by_cases ht : t < 16
  · rw [smoothRun_const_getElem? 20 16 _ (by rw [hWlen]; norm_num) t ht,
      hWlen, hsum]
    by_cases ht11 : t < 11
    · rw [if_pos (by omega)]
      interval_cases t <;> simp
    · rw [if_neg (by omega)]
      interval_cases t <;> norm_num [divV] <;> rfl
  · rw [List.getElem?_eq_none
        (by rw [smoothRun_length]; simp; omega),
      List.getElem?_eq_none (by simp; omega)]

theorem baitBlend_scenario (expf : ℚ → ℚ) (hpos : ∀ x, 0 < expf x) :
    baitBlend expf scenarioTemperature
        (List.replicate 11 none ++ List.replicate 5 (some 20))
      = List.replicate 11 none ++ List.replicate 5 (some 20) := by
  have hb : (1:ℚ) + expf (-(5/4)) ≠ 0 := by
    have := hpos (-(5/4)); linarith
  have hcell : (20:ℚ) * (1/2 / (1 + expf (-(5/4))))
      + 20 * (1 - 1/2 / (1 + expf (-(5/4)))) = 20 := by ring
  have hsplit : ∀ v : RVal, (List.replicate 16 v : List RVal)
      = List.replicate 11 v ++ List.replicate 5 v := by
    intro v
    rw [← List.replicate_add]
  simp only [baitBlend, scenarioTemperature]
  norm_num [List.map_replicate, List.zipWith_replicate', subV, mulV, divV, hb]
  rw [hsplit, hsplit]
  simp [List.zipWith_append, mulV_none_left, addV_none_right, mulV, addV,
    subV]
  ring

/-- C2 (amended): in the end-to-end scenario (16 uniform steps,
T = 20 °C, radiation 0, wind speed 0, humidity = setpoint_H(20),
smoothing 0.5, solar_gains = wind_chill = humidity_discomfort = 0) the
bait output is exactly 20 °C at the five steps with a full 12-step
smoothing window (steps 11..15) but NaN at steps 0..10: the
`keep_all_days=False` smoother leaves the warm-up region NaN and the
blend propagates it.  Holds for every positive interpretation of the
exponential. -/
theorem c2_bait_scenario (expf : ℚ → ℚ) (hpos : ∀ x, 0 < expf x) :
    _bait_xarray expf (scenarioHumidity expf) scenarioRadiation
        scenarioTemperature scenarioWind (1/2) 0 0 0
      = List.replicate 11 none ++ List.replicate 5 (some 20) := by
  rw [_bait_xarray, baitPreSmooth_scenario, smoothRun_scenario_weights,
    baitBlend_scenario expf hpos]

/-- C2 witness: the amended scenario statement under the concrete
positive stand-in for the exponential. -/
theorem c2_bait_scenario_witness :
    _bait_xarray expStub (scenarioHumidity expStub) scenarioRadiation
        scenarioTemperature scenarioWind (1/2) 0 0 0
      = List.replicate 11 none ++ List.replicate 5 (some 20) :=
  c2_bait_scenario expStub (fun x => by norm_num [expStub])

/-- C2 counterexample: the scenario output is NOT the constant-20
series the claim demands — its first eleven steps are NaN (shown here
under the concrete positive stand-in for the exponential; the amended
theorem shows the same for every positive interpretation). -/
theorem c2_constant_counterexample :
    _bait_xarray expStub (scenarioHumidity expStub) scenarioRadiation
        scenarioTemperature scenarioWind (1/2) 0 0 0
      ≠ List.replicate 16 (some 20) := by
  rw [_bait_xarray, baitPreSmooth_scenario, smoothRun_scenario_weights,
    baitBlend_scenario expStub (fun x => by norm_num [expStub])]
  intro h
  have h0 := congrArg (fun l => l[0]?) h
  simp [List.getElem?_append, List.getElem?_replicate] at h0
